import Mathlib

/-!
# Verification of the Incremental Synchronization & Merge Engine

A shallow embedding, in Lean 4, of the sync subsystem of the CLS_ALL
pipeline (files `src/sync/merge.py`, `src/sync/quality.py`,
`src/sync/transformation.py`, `src/sync/core.py`,
`src/sync/orchestrator.py`, `src/sync/file_discovery.py`,
`src/sync/sync_state.py`, `src/sync/backup.py`), together with proofs and
refutations of the stated behavioural properties.

Modelling conventions:
* A polars `DataFrame` over the fixed 0031 schema is a `List Row`.  A cell
  of a `Utf8` column is an `Option String` (`none` = polars `null`).
* The `Item Update Date` column is modelled as a `Nat` (its only uses in
  the embedded code are ordering for deduplication and reporting; a null
  date sorts first in polars and is modelled as `0`).
* Row order inside a frame is the list order.  `df.sort` is modelled as a
  stable insertion sort (order of equal elements preserved).
* Filesystem state (baseline parquet, backup folder, state JSON, the
  discovery folder) is an explicit `World` value threaded through the
  orchestrator; a Python exception is an `Except.error` result, returned
  together with the world as mutated up to the point of the raise.
-/

/-- The data columns of the 0031 baseline schema that participate in the
claims: the five composite-key columns, and the non-key columns used by the
quality validator and the change auditor.  The `Item Update Date` column is
kept separately on `Row` (as a `Nat`), mirroring its special role
(`id_vars` of the melt, sort key of the deduplication); the helper columns
`_unique_key`, `_merge_key` and `source_file` that the Python code adds and
drops again are not part of the record model. -/
inductive Col where
  | pmmItemNumber
  | corpAcct
  | vendorCode
  | addCostCentre
  | addGlAccount
  | contractNo
  | vendorCatalogue
  | vendorSeq
  | defaultUomPrice
deriving DecidableEq, Repr

/-- One row of the baseline table or of an incoming batch
(`src/constants.py`, `Columns0031` / `Schema0031`: the five key columns and
the data columns are `pl.Utf8`). -/
structure Row where
  pmmItemNumber : Option String
  corpAcct : Option String
  vendorCode : Option String
  addCostCentre : Option String
  addGlAccount : Option String
  itemUpdateDate : Nat
  contractNo : Option String
  vendorCatalogue : Option String
  vendorSeq : Option String
  defaultUomPrice : Option String
deriving DecidableEq, Repr

/-- Cell access by column. -/
def Row.get (r : Row) : Col → Option String
  | .pmmItemNumber => r.pmmItemNumber
  | .corpAcct => r.corpAcct
  | .vendorCode => r.vendorCode
  | .addCostCentre => r.addCostCentre
  | .addGlAccount => r.addGlAccount
  | .contractNo => r.contractNo
  | .vendorCatalogue => r.vendorCatalogue
  | .vendorSeq => r.vendorSeq
  | .defaultUomPrice => r.defaultUomPrice

/-- Python/polars `str.strip_chars()` with no argument: remove leading and
trailing whitespace.  (Defined over the character list so that it is fully
computable by the kernel.) -/
def stripChars (s : String) : String :=
  String.mk
    (((s.data.dropWhile Char.isWhitespace).reverse.dropWhile
        Char.isWhitespace).reverse)

/-- `cast(pl.Utf8).fill_null('').str.strip_chars()`: the normalisation each
key component undergoes in `prepare_merge_keys` (`merge.py` lines 63-74)
and in `track_row_changes` (`quality.py` lines 246-270). -/
def normStr (o : Option String) : String := stripChars (o.getD "")

/-- `merge.py` `prepare_merge_keys`: the `_merge_key` column, the
pipe-separated concatenation of the five normalised key components.
`track_row_changes` builds the identical `_unique_key` column. -/
def prepare_merge_key (r : Row) : String :=
  normStr r.pmmItemNumber ++ "|" ++ normStr r.corpAcct ++ "|"
    ++ normStr r.vendorCode ++ "|" ++ normStr r.addCostCentre ++ "|"
    ++ normStr r.addGlAccount

/-- The Composite Key of the data model: the five key components as trimmed
strings with null normalised to the empty string (spec section 3).  Unlike
`prepare_merge_key` this keeps the components separate, so a `|` inside a
component cannot conflate two distinct keys. -/
def compositeKey (r : Row) : String × String × String × String × String :=
  (normStr r.pmmItemNumber, normStr r.corpAcct, normStr r.vendorCode,
   normStr r.addCostCentre, normStr r.addGlAccount)

/-- The raw five-column tuple: `df.unique(subset=unique_keys, ...)` in
`deduplicate_data` groups rows by the raw (un-normalised) values of the
five key columns. -/
def rawKey (r : Row) :
    Option String × Option String × Option String × Option String × Option String :=
  (r.pmmItemNumber, r.corpAcct, r.vendorCode, r.addCostCentre, r.addGlAccount)

/-- `transformation.py` `clean_dataframe` on one cell:
`pl.col(pl.Utf8).str.strip_chars().replace('', None)` — trim, then map the
empty string to null. -/
def cleanVal (o : Option String) : Option String :=
  match o with
  | none => none
  | some s => if stripChars s = "" then none else some (stripChars s)

/-- `clean_dataframe` on one row: every `Utf8` column is trimmed and
blank-nullified; the (typed) date column is unaffected. -/
def cleanRow (r : Row) : Row :=
  { pmmItemNumber := cleanVal r.pmmItemNumber
    corpAcct := cleanVal r.corpAcct
    vendorCode := cleanVal r.vendorCode
    addCostCentre := cleanVal r.addCostCentre
    addGlAccount := cleanVal r.addGlAccount
    itemUpdateDate := r.itemUpdateDate
    contractNo := cleanVal r.contractNo
    vendorCatalogue := cleanVal r.vendorCatalogue
    vendorSeq := cleanVal r.vendorSeq
    defaultUomPrice := cleanVal r.defaultUomPrice }

/-- `clean_dataframe` on a frame. -/
def clean_dataframe (l : List Row) : List Row := l.map cleanRow

/-! ## merge.py -/

/-- One step of the stable sort modelling `df.sort(ITEM_UPDATE_DATE)`:
insert a row in front of the first row of date not smaller than its own. -/
def insertByDate (a : Row) : List Row → List Row
  | [] => [a]
  | b :: bs =>
      if a.itemUpdateDate ≤ b.itemUpdateDate then a :: b :: bs
      else b :: insertByDate a bs

/-- `df.sort(Columns0031.ITEM_UPDATE_DATE)` (`merge.py` line 33), modelled
as a stable insertion sort ascending by date. -/
def sortByDate : List Row → List Row
  | [] => []
  | a :: as => insertByDate a (sortByDate as)

/-- `df.unique(subset=unique_keys, keep='last')` (`merge.py` line 35): keep,
for every raw five-column key, the last occurrence in the frame. -/
def uniqueKeepLast : List Row → List Row
  | [] => []
  | a :: t =>
      if t.any (fun b => rawKey b = rawKey a) then uniqueKeepLast t
      else a :: uniqueKeepLast t

/-- `merge.py` `deduplicate_data`, specialised (as at every call site) to
the five-column key subset: sort ascending by `Item Update Date`, keep the
last occurrence of each raw key, and report
`initial_rows - deduplicated_rows` removals. -/
def deduplicate_data (l : List Row) : List Row × Nat :=
  let kept := uniqueKeepLast (sortByDate l)
  (kept, l.length - kept.length)

/-- The rows of a frame carrying a given raw five-column key. -/
def keyRows (l : List Row)
    (k : Option String × Option String × Option String × Option String × Option String) :
    List Row :=
  l.filter fun r => rawKey r = k

/-- The rows of a frame carrying a given update date. -/
def dateRows (l : List Row) (d : Nat) : List Row :=
  l.filter fun r => r.itemUpdateDate = d

/-- The row the deduplication is *specified* to keep for a key (spec
section 4.2: "keeping the occurrence with the latest 'item update'
timestamp (ties broken by input order)"): among the rows with that key,
those carrying the maximal update date, and of those the last one in input
order; `none` when the key does not occur. -/
def specLatest (l : List Row)
    (k : Option String × Option String × Option String × Option String × Option String) :
    Option Row :=
  let m := ((keyRows l k).map Row.itemUpdateDate).foldl max 0
  (dateRows (keyRows l k) m).getLast?

/-- The Merge Key Index of a frame: the set of `_merge_key` values
(`identify_changes` builds Python sets from the `_merge_key` column). -/
def mergeKeys (l : List Row) : Finset String :=
  (l.map prepare_merge_key).toFinset

/-- `merge.py` `identify_changes`:
`update_keys = current_keys & incremental_keys` and
`new_keys = incremental_keys - current_keys`. -/
def identify_changes (current incremental : List Row) :
    Finset String × Finset String :=
  (mergeKeys current ∩ mergeKeys incremental,
   mergeKeys incremental \ mergeKeys current)

/-- `merge.py` `merge_dataframes`: if `update_keys` is non-empty, drop every
current row whose `_merge_key` is in it; then append the incremental frame
(diagonal concat; the schema is fixed here, so concatenation is append). -/
def merge_dataframes (current incremental : List Row)
    (update_keys : Finset String) : List Row :=
  (if update_keys = ∅ then current
   else current.filter (fun r => !decide (prepare_merge_key r ∈ update_keys)))
    ++ incremental

/-! ## transformation.py -/

/-- `transformation.py` `apply_filters`: when the configured
`exclude_corp_acct` list is empty the frame is returned unchanged;
otherwise keep the rows whose `Corp Acct` string value is not in the list.
In polars, `~col.is_in(values)` evaluates to null on a null cell and
`filter` drops null-mask rows, so a row with a null `Corp Acct` is dropped
too when the exclusion list is non-empty. -/
def apply_filters (exclude_corp_acct : List String) (l : List Row) : List Row :=
  if exclude_corp_acct = [] then l
  else
    l.filter fun r =>
      match r.corpAcct with
      | none => false
      | some v => !decide (v ∈ exclude_corp_acct)

/-! ## quality.py : validate_parquet_data -/

/-- The structured result of `validate_parquet_data` (the detail frames are
reduced to the counts the orchestrator reads into the state summary). -/
structure ValidationResults where
  hasIssues : Bool
  contractsWithMultipleVendors : List String
  blankVendorCatalogueCount : Nat
  inconsistentVendorCatalogueCount : Nat
deriving DecidableEq, Repr

/-- Check 1 (`quality.py` lines 59-82): contracts (non-null, non-`'N/A'`
after trimming, with a non-null vendor code) that map to more than one
distinct vendor code. -/
def contractsMultiVendor (df : List Row) : List String :=
  let rows := df.filter fun r =>
    r.contractNo.isSome && r.vendorCode.isSome
      && !decide (stripChars (r.contractNo.getD "") = "N/A")
  ((rows.filterMap (·.contractNo)).dedup).filter fun c =>
    1 < ((rows.filter (fun r => r.contractNo = some c)).filterMap
          (·.vendorCode)).dedup.length

/-- Check 2 (`quality.py` lines 84-109): rows whose `Vendor Catalogue` is
null or blank after trimming; when a non-empty permitted list was loaded,
rows whose `PMM Item Number` is in the list are excluded (as is — by the
polars null semantics of `~is_in` — any blank-catalogue row with a null
`PMM Item Number`). -/
def blankVendorCatalogueRows (df : List Row) (permitted : List String) : List Row :=
  let blank := df.filter fun r =>
    r.vendorCatalogue.isNone
      || decide (stripChars (r.vendorCatalogue.getD "") = "")
  if permitted = [] then blank
  else
    blank.filter fun r =>
      match r.pmmItemNumber with
      | none => false
      | some p => !decide (p ∈ permitted)

/-- Check 3 (`quality.py` lines 111-160): (`PMM Item Number`, `Vendor
Code`, first two characters of `Corp Acct`) triples — over the rows where
those, `Vendor Catalogue` and `Vendor Seq` are all non-null and the
catalogue is not blank — carrying more than one distinct catalogue value. -/
def inconsistentCatalogueTriples (df : List Row) : List (String × String × String) :=
  let rows := df.filter fun r =>
    r.pmmItemNumber.isSome && r.vendorCode.isSome && r.vendorCatalogue.isSome
      && r.corpAcct.isSome && r.vendorSeq.isSome
      && !decide (stripChars (r.vendorCatalogue.getD "") = "")
  let key := fun (r : Row) =>
    (r.pmmItemNumber.getD "", r.vendorCode.getD "", (r.corpAcct.getD "").take 2)
  ((rows.map key).dedup).filter fun k =>
    1 < ((rows.filter (fun r => key r = k)).filterMap
          (·.vendorCatalogue)).dedup.length

/-- `quality.py` `validate_parquet_data`: `has_issues` starts `False` and
each of the three checks sets it to `True` when it finds at least one
issue; no check raises.  (The `in df.columns` guards are always satisfied:
the 0031 schema is fixed and carries every checked column.) -/
def validate_parquet_data (df : List Row) (permitted : List String) :
    ValidationResults :=
  let h0 := false
  let c1 := contractsMultiVendor df
  let h1 := if 0 < c1.length then true else h0
  let blankCount := (blankVendorCatalogueRows df permitted).length
  let h2 := if 0 < blankCount then true else h1
  let c3 := (inconsistentCatalogueTriples df).length
  let h3 := if 0 < c3 then true else h2
  { hasIssues := h3
    contractsWithMultipleVendors := c1
    blankVendorCatalogueCount := blankCount
    inconsistentVendorCatalogueCount := c3 }

/-! ## quality.py : track_row_changes (the Change Auditor) -/

inductive ChangeKind where
  | new
  | updated
deriving DecidableEq, Repr

/-- One field-level Change Record as built by `track_row_changes`
(`_unique_key`, molten column name, previous and current values, the
current row's update date, and the change type). -/
structure ChangeRec where
  key : String
  col : Col
  prevVal : Option String
  curVal : Option String
  updateDate : Nat
  kind : ChangeKind
deriving DecidableEq, Repr

/-- The columns the auditor compares for an updated key
(`quality.py` line 295):
`set(current.columns) - {'_unique_key', ITEM_UPDATE_DATE, 'source_file',
'_merge_key'}` — every data column of the schema except the update date and
the helper/provenance columns, the five key columns included. -/
def compareCols : List Col :=
  [.pmmItemNumber, .corpAcct, .vendorCode, .addCostCentre, .addGlAccount,
   .contractNo, .vendorCatalogue, .vendorSeq, .defaultUomPrice]

/-- The comparison form of a cell at diff time (`quality.py` lines
309-314): `cast(pl.Utf8).fill_null('')` — null coalesces to the empty
string, and the value is *not* re-trimmed. -/
def diffForm (o : Option String) : String := o.getD ""

/-- The `Updated` Change Records (`quality.py` lines 290-337): melt the
current and previous rows whose `_unique_key` is in both frames down to
(key, column, value) triples, inner-join them on (key, column), and keep
every pair whose values differ under `diffForm` equality. -/
def updatedChangeRecords (current previous : List Row) : List ChangeRec :=
  let updCur := current.filter fun r =>
    previous.any fun p => prepare_merge_key p = prepare_merge_key r
  let updPrev := previous.filter fun p =>
    current.any fun r => prepare_merge_key r = prepare_merge_key p
  updCur.flatMap fun r =>
    compareCols.flatMap fun c =>
      (updPrev.filter fun p =>
          decide (prepare_merge_key p = prepare_merge_key r)).filterMap fun p =>
        if diffForm (r.get c) ≠ diffForm (p.get c) then
          some { key := prepare_merge_key r, col := c, prevVal := p.get c,
                 curVal := r.get c, updateDate := r.itemUpdateDate,
                 kind := .updated }
        else none

/-- The `New` Change Records (`quality.py` lines 339-376): for every
current row whose `_unique_key` is absent from the previous frame, every
non-null field value becomes a Change Record of kind `New` with a null
previous value. -/
def newChangeRecords (current previous : List Row) : List ChangeRec :=
  let newRows := current.filter fun r =>
    !previous.any fun p => prepare_merge_key p = prepare_merge_key r
  newRows.flatMap fun r =>
    compareCols.filterMap fun c =>
      match r.get c with
      | none => none
      | some v =>
          some { key := prepare_merge_key r, col := c, prevVal := none,
                 curVal := some v, updateDate := r.itemUpdateDate,
                 kind := .new }

/-- `track_row_changes`, reduced to the audit record collection the claims
are about (`changes_df` = updates then news, by diagonal concat). -/
def track_row_changes (current previous : List Row) : List ChangeRec :=
  updatedChangeRecords current previous ++ newChangeRecords current previous

/-! ## The orchestrator's world: files, state, disk -/

/-- A source file in the watched main folder: its name, its modification
time, whether it matches the configured incremental glob, its parsed
content (`none` = `pl.read_excel` raises for it), and whether the archive
move for it succeeds (`shutil.move` is an I/O action that can fail; its
outcome is an input of the model). -/
structure SrcFile where
  name : String
  mtime : Nat
  isIncremental : Bool
  rows : Option (List Row)
  archiveOk : Bool
deriving DecidableEq, Repr

/-- The persisted sync state (`sync_state.py`; the JSON fields the claims
touch — the report summaries are out of the model). -/
structure SyncState where
  lastUpdate : Option Nat
  appliedIncrementals : List String
  fileTimestamps : List (String × Nat)
  rowCount : Nat
deriving DecidableEq, Repr

/-- The filesystem as the orchestrator sees it: the baseline parquet file
(`none` = missing), the backup folder (most recent snapshot first), the
persisted state file, the main (discovery) folder, and the archive
folder. -/
structure World where
  now : Nat
  baseline : Option (List Row)
  backups : List (List Row)
  state : SyncState
  mainFolder : List SrcFile
  archived : List String
deriving DecidableEq, Repr

/-- The configuration values the embedded code reads. -/
structure Config where
  excludeCorpAcct : List String
  maxIncrementalsPerRun : Nat
  shouldArchive : Bool
  permittedBlankVpn : List String
deriving DecidableEq, Repr

/-- The exceptions the embedded run can raise. -/
inductive RunError where
  | missingBaseline
  | noDataLoaded
  | archiveFailure
  | noExcelFiles
  | processFailed
deriving DecidableEq, Repr

/-- Stable insertion step for sorting files by name
(`sorted(...)` / `list.sort()` on paths). -/
def insertByName (a : SrcFile) : List SrcFile → List SrcFile
  | [] => [a]
  | b :: bs =>
      if a.name ≤ b.name then a :: b :: bs else b :: insertByName a bs

/-- Sort a file list by name. -/
def sortByName : List SrcFile → List SrcFile
  | [] => []
  | a :: as => insertByName a (sortByName as)

/-- `file_discovery.py` `get_incremental_files`: the files of the main
folder matching the incremental pattern, sorted by name. -/
def get_incremental_files (w : World) : List SrcFile :=
  sortByName (w.mainFolder.filter (·.isIncremental))

/-- The `{str(path): mtime}` map built over the main folder's files. -/
def currentTimestamps (files : List SrcFile) : List (String × Nat) :=
  files.map fun f => (f.name, f.mtime)

/-- Lookup in a persisted timestamp map. -/
def lookupTs (ts : List (String × Nat)) (n : String) : Option Nat :=
  (ts.find? fun p => p.1 = n).map (·.2)

/-- `file_discovery.py` `check_for_changes`: no Excel files means no
changes; otherwise a change is a file that is new, has a different
modification time, or was deleted since the recorded timestamps. -/
def check_for_changes (files : List SrcFile) (st : SyncState) : Bool :=
  if files = [] then false
  else
    (files.any fun f =>
      match lookupTs st.fileTimestamps f.name with
      | none => true
      | some m => decide (m ≠ f.mtime))
    || (st.fileTimestamps.any fun p => !(files.any fun f => f.name = p.1))

/-- `utils/file_operations.py` `archive_file` applied in sequence to the
processed batch files (`core.py` lines 320-325): each successful move
removes the file from the main folder and records it in the archive; the
first failing move raises, leaving the earlier moves done. -/
def archiveFiles (w : World) : List SrcFile → Bool × World
  | [] => (true, w)
  | f :: fs =>
      if f.archiveOk then
        archiveFiles
          { w with mainFolder := w.mainFolder.erase f,
                   archived := f.name :: w.archived } fs
      else (false, w)

/-- The pure merge pipeline of `core.py` `apply_incremental_update`
(lines 120-310): diagonal-concatenate the loaded batch frames, clean and
type-cast them, apply the Corp-Acct exclusion filter, deduplicate,
classify the keys, merge into the current baseline, and apply the
exclusion filter once more to the whole merged frame (line 310).  This is
the value written to the baseline file. -/
def mergedBaseline (exclude_corp_acct : List String) (current : List Row)
    (loaded : List (List Row)) : List Row :=
  let combined := loaded.flatten            -- pl.concat(..., how='diagonal')
  let cleaned := clean_dataframe combined   -- clean + type casts (casts are identity here)
  let filtered := apply_filters exclude_corp_acct cleaned      -- core.py 133
  -- (the five-key schema check of core.py 143-147 always passes: fixed schema;
  -- the change tracking of core.py 150-278 is pure reporting)
  let deduped := (deduplicate_data filtered).1                 -- core.py 284
  let update_keys := (identify_changes current deduped).1      -- core.py 292
  let merged := merge_dataframes current deduped update_keys   -- core.py 298
  apply_filters exclude_corp_acct merged                       -- core.py 310

/-- `core.py` `apply_incremental_update` in batch mode, as the orchestrator
calls it: load the baseline (raising if missing), snapshot it to the backup
folder, load/clean/filter the batch files into one combined frame,
deduplicate, classify keys, merge, re-filter, write the result to the
baseline file, validate it, then archive the batch files.  There is no
handler around the steps after the backup: any failure propagates with the
disk as mutated so far (in particular the function never restores the
backup it created). -/
def apply_incremental_update (w : World) (cfg : Config) (files : List SrcFile) :
    Except RunError (List Row × ValidationResults) × World :=
  match w.baseline with
  | none => (.error .missingBaseline, w)   -- ValueError: parquet not found
  | some current =>
    -- create ONE backup before processing (core.py line 78)
    let w1 := { w with backups := current :: w.backups }
    -- ingest.process_excel_files skips unreadable files (ingest.py 31-42),
    -- and core.py 105 keeps only the non-None frames; the run aborts only
    -- when no data at all was loaded (core.py 117-118)
    let loaded := files.filterMap (·.rows)
    if loaded = [] then (.error .noDataLoaded, w1)
    else
      let final := mergedBaseline cfg.excludeCorpAcct current loaded
      let w2 := { w1 with baseline := some final }               -- write_parquet, core.py 314
      let vres := validate_parquet_data final cfg.permittedBlankVpn  -- core.py 317
      if cfg.shouldArchive then
        match archiveFiles w2 files with
        | (true, w3) => (.ok (final, vres), w3)
        | (false, w3) => (.error .archiveFailure, w3)
      else (.ok (final, vres), w2)

/-- The full-rebuild branch of `update_parquet_if_needed` (orchestrator.py
lines 260-353 with `core.py` `rebuild_parquet`): snapshot the baseline if
it exists, rebuild the frame from every readable file of the main folder,
write and validate it, and *replace* the persisted state (which drops the
`applied_incrementals` key).  On a failure inside the guarded block the
pre-run snapshot is copied back onto the baseline file and the error
propagates. -/
def rebuildRun (w : World) (cfg : Config) (newTs : List (String × Nat)) :
    Except RunError Bool × World :=
  let w1 := match w.baseline with
            | some c => { w with backups := c :: w.backups }  -- create_backup
            | none => w                                        -- returns None: nothing to back up
  let step : Except RunError (List Row) :=
    if w.mainFolder = [] then .error .noExcelFiles
    else
      let loaded := w.mainFolder.filterMap (·.rows)
      if loaded = [] then .error .processFailed
      else .ok (apply_filters cfg.excludeCorpAcct (clean_dataframe loaded.flatten))
  match step with
  | .error e =>
      (.error e,
       match w.baseline with
       | some c => { w1 with baseline := some c }  -- shutil.copy2(backup, db_file)
       | none => w1)
  | .ok final =>
      let w2 := { w1 with baseline := some final }  -- write_parquet inside rebuild_parquet
      let _vres := validate_parquet_data final cfg.permittedBlankVpn
      let st : SyncState :=
        { lastUpdate := some w.now, appliedIncrementals := [],
          fileTimestamps := newTs, rowCount := final.length }
      (.ok true, { w2 with state := st })          -- save_state

/-- `orchestrator.py` `update_parquet_if_needed` (automatic mode; the
legacy single-file branch is omitted — in the source its `try:` block has
no handler, the file being truncated there, and no claim concerns it).
Unapplied incremental files are selected by filtering the discovered files
against the persisted `applied_incrementals` set, sorting by name and
capping at `max_incrementals_per_run`; a successful batch merges them all
and adds their names to the applied set without touching the recorded file
timestamps; a failing batch propagates the error with no backup
restoration (lines 239-243).  With no unapplied incrementals the run falls
back to the timestamp check and, only if it reports changes (or a rebuild
is forced), to the full rebuild. -/
def unappliedIncrementals (w : World) : List SrcFile :=
  (get_incremental_files w).filter fun f =>
    !decide (f.name ∈ w.state.appliedIncrementals)

/-- The batch actually processed in one incremental run: the unapplied
files, sorted by name, capped at `max_incrementals_per_run`
(orchestrator.py lines 163-175). -/
def selectedIncrementals (w : World) (cfg : Config) : List SrcFile :=
  (sortByName (unappliedIncrementals w)).take cfg.maxIncrementalsPerRun

def update_parquet_if_needed (w : World) (cfg : Config) (forceRebuild : Bool) :
    Except RunError Bool × World :=
  if (unappliedIncrementals w).isEmpty then
    if !forceRebuild && !check_for_changes w.mainFolder w.state then
      (.ok false, w)   -- up to date: no mutation
    else rebuildRun w cfg (currentTimestamps w.mainFolder)
  else
    let selected := selectedIncrementals w cfg
    match apply_incremental_update w cfg selected with
    | (.ok (final, _vres), w') =>
        let st : SyncState :=
          { lastUpdate := some w.now,
            appliedIncrementals :=
              w.state.appliedIncrementals.union (selected.map (·.name)),
            fileTimestamps := w.state.fileTimestamps,  -- state.update keeps this key
            rowCount := final.length }
        (.ok true, { w' with state := st })            -- save_state
    | (.error e, w') => (.error e, w')  -- log and re-raise; no restore (lines 239-243)

/-! ## The update-mode state machine (spec section 4.1)

The weekly-full (full-refresh) priority branch of
`update_parquet_if_needed` is missing from the source file: the file is
truncated in that region (the `try:` opened at line 105 has no handler),
its helpers `get_weekly_full_files` and `process_weekly_full_backup` are
imported but never called, and the fallback logs "No new weekly full or
incremental files detected".  The definitions in this section model that
missing branch from the spec. -/

inductive SyncMode where
  | fullRefreshPending
  | incrementalPending
  | upToDate
deriving DecidableEq, Repr

/-- Modelled from the spec: the missing mode-selection rule of
`update_parquet_if_needed` (spec section 4.1) — "If one or more
full-refresh batches are discovered → state = FullRefreshPending
(full-refresh always takes priority; any incremental batches present are
left untouched for the next run)"; else, if unapplied incremental batches
exist → IncrementalPending; else UpToDate. -/
def specChooseMode (weekly incremental : List SrcFile)
    (applied : List String) : SyncMode :=
  if !weekly.isEmpty then .fullRefreshPending
  else if incremental.any (fun f => !decide (f.name ∈ applied)) then
    .incrementalPending
  else .upToDate

/-- The observable outcome of one spec-level orchestrated run. -/
structure SpecRunResult where
  mode : SyncMode
  baseline : List Row
  processedIncrementals : List SrcFile
  remainingIncrementals : List SrcFile
  applied : List String
deriving DecidableEq, Repr

/-- Modelled from the spec: one orchestrated run over the discovered
weekly-full and incremental batches (the run state machine of spec section
4.1, whose full-refresh branch is missing from the source).  On
FullRefreshPending the baseline is rebuilt from every record of the
full-refresh batch(es), processed exactly as the present
`process_weekly_full_backup` does (clean, type-cast, filter); the
applied-incrementals set is reset and the discovered incremental files are
not consumed.  On IncrementalPending the unapplied batches are merged as
the present `apply_incremental_update` does and are archived out of the
folder.  On UpToDate nothing changes. -/
def specRun (cfg : Config) (weekly incremental : List SrcFile)
    (applied : List String) (current : List Row) : SpecRunResult :=
  match specChooseMode weekly incremental applied with
  | .fullRefreshPending =>
      { mode := .fullRefreshPending
        baseline := apply_filters cfg.excludeCorpAcct
          (clean_dataframe (weekly.filterMap (·.rows)).flatten)
        processedIncrementals := []
        remainingIncrementals := incremental
        applied := [] }
  | .incrementalPending =>
      let sel := (sortByName (incremental.filter fun f =>
        !decide (f.name ∈ applied))).take cfg.maxIncrementalsPerRun
      { mode := .incrementalPending
        baseline := mergedBaseline cfg.excludeCorpAcct current
          (sel.filterMap (·.rows))
        processedIncrementals := sel
        remainingIncrementals := incremental.filter fun f => !decide (f ∈ sel)
        applied := applied.union (sel.map (·.name)) }
  | .upToDate =>
      { mode := .upToDate, baseline := current, processedIncrementals := [],
        remainingIncrementals := incremental, applied := applied }

/-! ## Concrete sample data -/

/-- A baseline record (clean, fully populated key). -/
def rowBase : Row :=
  { pmmItemNumber := some "B1", corpAcct := some "10", vendorCode := some "V1",
    addCostCentre := some "CC1", addGlAccount := some "GL1", itemUpdateDate := 1,
    contractNo := none, vendorCatalogue := some "CAT1", vendorSeq := some "1",
    defaultUomPrice := some "5" }

/-- An incoming record with a key different from `rowBase`. -/
def rowInc : Row :=
  { pmmItemNumber := some "B2", corpAcct := some "10", vendorCode := some "V1",
    addCostCentre := some "CC1", addGlAccount := some "GL1", itemUpdateDate := 2,
    contractNo := none, vendorCatalogue := some "CAT2", vendorSeq := some "1",
    defaultUomPrice := some "6" }

/-- An incremental batch file whose post-merge archive move fails. -/
def fileIncBad : SrcFile :=
  { name := "incremental_20240101.xlsx", mtime := 5, isIncremental := true,
    rows := some [rowInc], archiveOk := false }

/-- A weekly-full batch file. -/
def fileWeekly : SrcFile :=
  { name := "full_week1.xlsx", mtime := 3, isIncremental := false,
    rows := some [rowBase], archiveOk := true }

/-- An already-applied incremental batch file. -/
def fileApplied : SrcFile :=
  { name := "incremental_a.xlsx", mtime := 7, isIncremental := true,
    rows := some [rowInc], archiveOk := true }

/-- A plain configuration: no exclusions, cap 10, archiving on. -/
def cfg0 : Config :=
  { excludeCorpAcct := [], maxIncrementalsPerRun := 10, shouldArchive := true,
    permittedBlankVpn := [] }

/-- A world holding one baseline row and one unapplied incremental file
whose archive step will fail. -/
def worldC1 : World :=
  { now := 100, baseline := some [rowBase], backups := [],
    state := { lastUpdate := none, appliedIncrementals := [],
               fileTimestamps := [], rowCount := 1 },
    mainFolder := [fileIncBad], archived := [] }

/-- An incoming record sharing `rowBase`'s composite key with a different
price: a whole-record update of `rowBase`. -/
def rowUpd : Row :=
  { pmmItemNumber := some "B1", corpAcct := some "10", vendorCode := some "V1",
    addCostCentre := some "CC1", addGlAccount := some "GL1", itemUpdateDate := 2,
    contractNo := none, vendorCatalogue := some "CAT1", vendorSeq := some "1",
    defaultUomPrice := some "12" }

/-- Two incoming rows sharing one key with dates 1 < 2 (the `Price=10` /
`Price=12` scenario of spec section 8). -/
def rowDup1 : Row :=
  { pmmItemNumber := some "K", corpAcct := some "10", vendorCode := some "V1",
    addCostCentre := some "CC1", addGlAccount := some "GL1", itemUpdateDate := 1,
    contractNo := none, vendorCatalogue := some "CAT", vendorSeq := some "1",
    defaultUomPrice := some "10" }

/-- See `rowDup1`. -/
def rowDup2 : Row :=
  { pmmItemNumber := some "K", corpAcct := some "10", vendorCode := some "V1",
    addCostCentre := some "CC1", addGlAccount := some "GL1", itemUpdateDate := 2,
    contractNo := none, vendorCatalogue := some "CAT", vendorSeq := some "1",
    defaultUomPrice := some "12" }

/-- A baseline record with a blank (null) `Vendor Catalogue`: a validation
finding of check 2. -/
def rowBlank : Row :=
  { pmmItemNumber := some "B1", corpAcct := some "10", vendorCode := some "V1",
    addCostCentre := some "CC1", addGlAccount := some "GL1", itemUpdateDate := 1,
    contractNo := none, vendorCatalogue := none, vendorSeq := some "1",
    defaultUomPrice := some "5" }

/-- An incremental batch file whose archive move succeeds. -/
def fileIncGood : SrcFile :=
  { name := "incremental_b.xlsx", mtime := 1, isIncremental := true,
    rows := some [rowInc], archiveOk := true }

/-- A world whose baseline row carries a validation issue. -/
def worldC8 : World :=
  { now := 100, baseline := some [rowBlank], backups := [],
    state := { lastUpdate := none, appliedIncrementals := [],
               fileTimestamps := [], rowCount := 1 },
    mainFolder := [fileIncGood], archived := [] }

/-- An incoming row whose `PMM Item Number` contains a `|`: its
`_unique_key` collides with that of `rowPipePrev` although the two rows
differ (only) in their key fields. -/
def rowPipeCur : Row :=
  { pmmItemNumber := some "a|b", corpAcct := some "c", vendorCode := some "V",
    addCostCentre := some "C", addGlAccount := some "G", itemUpdateDate := 2,
    contractNo := none, vendorCatalogue := some "CAT", vendorSeq := some "1",
    defaultUomPrice := some "5" }

/-- A baseline row key-colliding with `rowPipeCur` (see there). -/
def rowPipePrev : Row :=
  { pmmItemNumber := some "a", corpAcct := some "b|c", vendorCode := some "V",
    addCostCentre := some "C", addGlAccount := some "G", itemUpdateDate := 1,
    contractNo := none, vendorCatalogue := some "CAT", vendorSeq := some "1",
    defaultUomPrice := some "5" }

/-- The `Updated` Change Record the auditor emits for the key field
`PMM Item Number` on the pair `rowPipeCur` / `rowPipePrev`. -/
def recPipe : ChangeRec :=
  { key := "a|b|c|V|C|G", col := .pmmItemNumber, prevVal := some "a",
    curVal := some "a|b", updateDate := 2, kind := .updated }

/-- Incoming row for the C10 witness: null-to-value change on
`Vendor Catalogue`. -/
def rowC10cur : Row :=
  { pmmItemNumber := some "K", corpAcct := some "10", vendorCode := some "V",
    addCostCentre := some "C", addGlAccount := some "G", itemUpdateDate := 2,
    contractNo := none, vendorCatalogue := some "NEW", vendorSeq := some "1",
    defaultUomPrice := some "5" }

/-- Baseline row for the C10 witness: same key, null `Vendor Catalogue`. -/
def rowC10prev : Row :=
  { pmmItemNumber := some "K", corpAcct := some "10", vendorCode := some "V",
    addCostCentre := some "C", addGlAccount := some "G", itemUpdateDate := 1,
    contractNo := none, vendorCatalogue := none, vendorSeq := some "1",
    defaultUomPrice := some "5" }

/-- A baseline record whose `Corp Acct` is in the exclusion list used by
the C9 witness; its key is touched by no batch. -/
def rowExcl : Row :=
  { pmmItemNumber := some "X1", corpAcct := some "99", vendorCode := some "V9",
    addCostCentre := some "CC9", addGlAccount := some "GL9", itemUpdateDate := 1,
    contractNo := none, vendorCatalogue := some "CAT9", vendorSeq := some "1",
    defaultUomPrice := some "9" }

/-- A world in which the only discovered incremental file is already in the
applied set and the recorded timestamps match the folder. -/
def worldC3 : World :=
  { now := 100, baseline := some [rowBase], backups := [],
    state := { lastUpdate := none, appliedIncrementals := ["incremental_a.xlsx"],
               fileTimestamps := [("incremental_a.xlsx", 7)], rowCount := 1 },
    mainFolder := [fileApplied], archived := [] }

/-! # Theorems -/

/-! ## Helper lemmas -/

/-- Archiving batch files only moves files between the main folder and the
archive; it never touches the baseline, the backups or the state. -/
theorem archiveFiles_preserves (w : World) (fs : List SrcFile) :
    (archiveFiles w fs).2.baseline = w.baseline
      ∧ (archiveFiles w fs).2.state = w.state
      ∧ (archiveFiles w fs).2.backups = w.backups := by
  induction fs generalizing w with
  | nil => exact ⟨rfl, rfl, rfl⟩
  | cons f fs ih =>
      by_cases h : f.archiveOk
      · simpa [archiveFiles, h] using
          ih { w with mainFolder := w.mainFolder.erase f,
                      archived := f.name :: w.archived }
      · simp [archiveFiles, h]

/-! ### Sorting and deduplication lemmas -/

theorem keyRows_cons (a : Row) (t : List Row)
    (k : Option String × Option String × Option String × Option String × Option String) :
    keyRows (a :: t) k
      = if rawKey a = k then a :: keyRows t k else keyRows t k := by
  by_cases h : rawKey a = k <;> simp [keyRows, List.filter_cons, h]

theorem dateRows_cons (a : Row) (t : List Row) (d : Nat) :
    dateRows (a :: t) d
      = if a.itemUpdateDate = d then a :: dateRows t d else dateRows t d := by
  by_cases h : a.itemUpdateDate = d <;> simp [dateRows, List.filter_cons, h]

theorem mem_insertByDate {a x : Row} {l : List Row} :
    x ∈ insertByDate a l ↔ x = a ∨ x ∈ l := by
  induction l with
  | nil => simp [insertByDate]
  | cons b bs ih =>
      by_cases h : a.itemUpdateDate ≤ b.itemUpdateDate
      · simp [insertByDate, h]
      · simp only [insertByDate, if_neg h, List.mem_cons, ih]
        tauto

theorem insertByDate_perm (a : Row) (l : List Row) :
    List.Perm (insertByDate a l) (a :: l) := by
  induction l with
  | nil => simp [insertByDate]
  | cons b bs ih =>
      by_cases h : a.itemUpdateDate ≤ b.itemUpdateDate
      · simp [insertByDate, h]
      · rw [insertByDate, if_neg h]
        exact (ih.cons b).trans (List.Perm.swap a b bs)

theorem sortByDate_perm (l : List Row) : List.Perm (sortByDate l) l := by
  induction l with
  | nil => exact List.Perm.refl []
  | cons a as ih =>
      exact (insertByDate_perm a (sortByDate as)).trans (ih.cons a)

theorem pairwise_insertByDate {a : Row} {l : List Row}
    (hl : l.Pairwise fun x y => x.itemUpdateDate ≤ y.itemUpdateDate) :
    (insertByDate a l).Pairwise fun x y => x.itemUpdateDate ≤ y.itemUpdateDate := by
  induction l with
  | nil => simp [insertByDate]
  | cons b bs ih =>
      rcases List.pairwise_cons.1 hl with ⟨hb, hbs⟩
      by_cases h : a.itemUpdateDate ≤ b.itemUpdateDate
      · rw [insertByDate, if_pos h]
        refine List.pairwise_cons.2 ⟨?_, hl⟩
        intro x hx
        rcases List.mem_cons.1 hx with rfl | hx'
        · exact h
        · exact le_trans h (hb x hx')
      · rw [insertByDate, if_neg h]
        refine List.pairwise_cons.2 ⟨?_, ih hbs⟩
        intro x hx
        rcases mem_insertByDate.1 hx with rfl | hx'
        · exact Nat.le_of_lt (Nat.lt_of_not_le h)
        · exact hb x hx'

theorem sortByDate_sorted (l : List Row) :
    (sortByDate l).Pairwise fun x y => x.itemUpdateDate ≤ y.itemUpdateDate := by
  induction l with
  | nil => simp [sortByDate]
  | cons a as ih => exact pairwise_insertByDate ih

/-- Stability of the insertion step: filtering on a date commutes with the
insertion — a skipped element always has a strictly smaller date than the
inserted one. -/
theorem dateRows_insertByDate (a : Row) (t : List Row) (d : Nat) :
    dateRows (insertByDate a t) d
      = if a.itemUpdateDate = d then a :: dateRows t d else dateRows t d := by
  induction t with
  | nil =>
      by_cases h : a.itemUpdateDate = d <;>
        simp [insertByDate, dateRows, List.filter_cons, h]
  | cons b bs ih =>
      by_cases hab : a.itemUpdateDate ≤ b.itemUpdateDate
      · rw [insertByDate, if_pos hab, dateRows_cons, dateRows_cons]
      · rw [insertByDate, if_neg hab]
        have hba : b.itemUpdateDate < a.itemUpdateDate := Nat.lt_of_not_le hab
        rw [dateRows_cons, ih, dateRows_cons]
        by_cases had : a.itemUpdateDate = d
        · have hbd : ¬ b.itemUpdateDate = d := by
            intro hbd
            rw [← had] at hbd
            exact absurd hbd (Nat.ne_of_lt hba)
          rw [if_neg hbd, if_pos had, if_pos had, if_neg hbd]
        · rw [if_neg had, if_neg had]

/-- Stability of the sort: the sublist of rows with a given date is
unchanged (order included). -/
theorem dateRows_sortByDate (l : List Row) (d : Nat) :
    dateRows (sortByDate l) d = dateRows l d := by
  induction l with
  | nil => rfl
  | cons a as ih =>
      show dateRows (insertByDate a (sortByDate as)) d = dateRows (a :: as) d
      rw [dateRows_insertByDate, ih, dateRows_cons]

theorem dateRows_keyRows_comm (l : List Row)
    (k : Option String × Option String × Option String × Option String × Option String)
    (d : Nat) :
    dateRows (keyRows l k) d = keyRows (dateRows l d) k := by
  induction l with
  | nil => rfl
  | cons a as ih =>
      rw [keyRows_cons, dateRows_cons]
      by_cases hk : rawKey a = k <;> by_cases hd : a.itemUpdateDate = d <;>
        simp [keyRows_cons, dateRows_cons, hk, hd, ih]

theorem mem_uniqueKeepLast {x : Row} {l : List Row}
    (h : x ∈ uniqueKeepLast l) : x ∈ l := by
  induction l with
  | nil => simp [uniqueKeepLast] at h
  | cons a t ih =>
      rw [uniqueKeepLast] at h
      split at h
      · exact List.mem_cons_of_mem a (ih h)
      · rcases List.mem_cons.1 h with rfl | h'
        · exact List.mem_cons_self _ _
        · exact List.mem_cons_of_mem a (ih h')

theorem getLast?_cons_ne {a : Row} {l : List Row} (h : l ≠ []) :
    (a :: l).getLast? = l.getLast? := by
  cases l with
  | nil => exact absurd rfl h
  | cons b t => exact List.getLast?_cons_cons

theorem mem_of_getLast?R {l : List Row} {m : Row} (h : l.getLast? = some m) :
    m ∈ l := by
  induction l with
  | nil => simp at h
  | cons a t ih =>
      cases t with
      | nil =>
          have : a = m := by simpa using h
          rw [← this]
          exact List.mem_cons_self _ _
      | cons b t' =>
          rw [List.getLast?_cons_cons] at h
          exact List.mem_cons_of_mem a (ih h)

theorem eq_nil_of_getLast?_none {l : List Row} (h : l.getLast? = none) :
    l = [] := by
  induction l with
  | nil => rfl
  | cons a t ih =>
      cases t with
      | nil => simp at h
      | cons b t' =>
          rw [List.getLast?_cons_cons] at h
          exact absurd (ih h) (List.cons_ne_nil b t')

/-- In a date-sorted list, the last element carries the maximal date. -/
theorem pairwise_last_max {l : List Row}
    (hs : l.Pairwise fun x y => x.itemUpdateDate ≤ y.itemUpdateDate)
    {m : Row} (hl : l.getLast? = some m) :
    ∀ x ∈ l, x.itemUpdateDate ≤ m.itemUpdateDate := by
  induction l with
  | nil => simp at hl
  | cons a t ih =>
      rcases List.pairwise_cons.1 hs with ⟨ha, ht⟩
      cases t with
      | nil =>
          have ham : a = m := by simpa using hl
          intro x hx
          rcases List.mem_singleton.1 hx with rfl
          rw [ham]
      | cons b t' =>
          rw [List.getLast?_cons_cons] at hl
          intro x hx
          rcases List.mem_cons.1 hx with rfl | hx'
          · exact ha m (mem_of_getLast?R hl)
          · exact ih ht hl x hx'

/-- The last element of a list is still the last element of the sublist of
rows carrying its date. -/
theorem getLast?_dateRows {l : List Row} {m : Row} (h : l.getLast? = some m) :
    (dateRows l m.itemUpdateDate).getLast? = some m := by
  induction l with
  | nil => simp at h
  | cons a t ih =>
      cases t with
      | nil =>
          have ham : a = m := by simpa using h
          rw [← ham, dateRows_cons, if_pos rfl]
          rfl
      | cons b t' =>
          rw [List.getLast?_cons_cons] at h
          have ih' := ih h
          have hne : dateRows (b :: t') m.itemUpdateDate ≠ [] := by
            intro hnil
            rw [hnil] at ih'
            simp at ih'
          rw [dateRows_cons]
          by_cases had : a.itemUpdateDate = m.itemUpdateDate
          · rw [if_pos had, getLast?_cons_ne hne]
            exact ih'
          · rw [if_neg had]
            exact ih'

theorem base_le_foldl_max (xs : List Nat) (a : Nat) : a ≤ xs.foldl max a := by
  induction xs generalizing a with
  | nil => exact le_refl a
  | cons y ys ih => exact le_trans (le_max_left a y) (ih (max a y))

theorem le_foldl_max (xs : List Nat) (a x : Nat) (h : x ∈ xs) :
    x ≤ xs.foldl max a := by
  induction xs generalizing a with
  | nil => simp at h
  | cons y ys ih =>
      rcases List.mem_cons.1 h with rfl | h'
      · exact le_trans (le_max_right a x) (base_le_foldl_max ys (max a x))
      · exact ih (max a y) h'

theorem foldl_max_le (xs : List Nat) (a b : Nat) (hxs : ∀ x ∈ xs, x ≤ b)
    (ha : a ≤ b) : xs.foldl max a ≤ b := by
  induction xs generalizing a with
  | nil => exact ha
  | cons y ys ih =>
      exact ih (max a y) (fun x hx => hxs x (List.mem_cons_of_mem y hx))
        (max_le ha (hxs y (List.mem_cons_self y ys)))

/-- `df.unique(subset, keep='last')` keeps, for each key, exactly the last
occurrence: the key's rows in the result are the `getLast?` of the key's
rows in the input. -/
theorem keyRows_uniqueKeepLast (l : List Row)
    (k : Option String × Option String × Option String × Option String × Option String) :
    keyRows (uniqueKeepLast l) k = ((keyRows l k).getLast?).toList := by
  induction l with
  | nil => rfl
  | cons a t ih =>
      rw [uniqueKeepLast]
      by_cases hg : (t.any fun b => decide (rawKey b = rawKey a)) = true
      · rw [if_pos hg, ih, keyRows_cons]
        by_cases hak : rawKey a = k
        · have hne : keyRows t k ≠ [] := by
            rcases List.any_eq_true.1 hg with ⟨b, hb, hbk⟩
            rw [decide_eq_true_eq] at hbk
            have hbmem : b ∈ keyRows t k := by
              rw [keyRows, List.mem_filter]
              exact ⟨hb, by rw [decide_eq_true_eq, hbk, hak]⟩
            intro hnil
            rw [hnil] at hbmem
            exact (List.not_mem_nil b) hbmem
          rw [if_pos hak, getLast?_cons_ne hne]
        · rw [if_neg hak]
      · rw [if_neg hg, keyRows_cons, keyRows_cons]
        by_cases hak : rawKey a = k
        · have htk : keyRows t k = [] := by
            rw [keyRows, List.filter_eq_nil_iff]
            intro b hb
            rw [decide_eq_true_eq]
            intro hbk
            exact hg (List.any_eq_true.2
              ⟨b, hb, by rw [decide_eq_true_eq, hbk, hak]⟩)
          have hukt : keyRows (uniqueKeepLast t) k = [] := by
            rw [ih, htk]
            rfl
          rw [if_pos hak, if_pos hak, hukt, htk]
          rfl
        · rw [if_neg hak, if_neg hak]
          exact ih

/-- The deduplication keeps, for every raw key, exactly the row the spec
designates: the last input occurrence among those with the maximal update
date. -/
theorem dedup_keyRows (l : List Row)
    (k : Option String × Option String × Option String × Option String × Option String) :
    keyRows (deduplicate_data l).1 k = (specLatest l k).toList := by
  have hperm : List.Perm (keyRows (sortByDate l) k) (keyRows l k) :=
    (sortByDate_perm l).filter _
  show keyRows (uniqueKeepLast (sortByDate l)) k = (specLatest l k).toList
  rw [keyRows_uniqueKeepLast]
  cases hA : (keyRows (sortByDate l) k).getLast? with
  | none =>
      have h1 : keyRows (sortByDate l) k = [] := eq_nil_of_getLast?_none hA
      have h2 : keyRows l k = [] := by
        rw [h1] at hperm
        exact (hperm.symm).eq_nil
      simp only [specLatest, h2]
      rfl
  | some m =>
      have hmem_s : m ∈ keyRows (sortByDate l) k := mem_of_getLast?R hA
      have hsorted : (keyRows (sortByDate l) k).Pairwise
          (fun x y => x.itemUpdateDate ≤ y.itemUpdateDate) :=
        List.Pairwise.sublist (List.filter_sublist _) (sortByDate_sorted l)
      have hmax : ∀ x ∈ keyRows l k, x.itemUpdateDate ≤ m.itemUpdateDate := by
        intro x hx
        exact pairwise_last_max hsorted hA x (hperm.mem_iff.2 hx)
      have hm_mem : m ∈ keyRows l k := hperm.mem_iff.1 hmem_s
      have hfold : ((keyRows l k).map Row.itemUpdateDate).foldl max 0
          = m.itemUpdateDate := by
        apply le_antisymm
        · refine foldl_max_le _ _ _ ?_ (Nat.zero_le _)
          intro x hx
          rcases List.mem_map.1 hx with ⟨y, hy, rfl⟩
          exact hmax y hy
        · exact le_foldl_max _ 0 _ (List.mem_map_of_mem _ hm_mem)
      have hspec : specLatest l k = some m := by
        simp only [specLatest, hfold]
        have hchain : dateRows (keyRows l k) m.itemUpdateDate
            = dateRows (keyRows (sortByDate l) k) m.itemUpdateDate := by
          rw [dateRows_keyRows_comm, dateRows_keyRows_comm, dateRows_sortByDate]
        rw [hchain]
        exact getLast?_dateRows hA
      rw [hspec]

theorem dedup_subset {r : Row} {l : List Row}
    (h : r ∈ (deduplicate_data l).1) : r ∈ l :=
  (sortByDate_perm l).mem_iff.1 (mem_uniqueKeepLast h)

theorem dedup_key_present {l : List Row}
    {k : Option String × Option String × Option String × Option String × Option String}
    (h : ∃ r ∈ l, rawKey r = k) :
    keyRows (deduplicate_data l).1 k ≠ [] := by
  rcases h with ⟨r, hr, hrk⟩
  intro hnil
  have h1 : keyRows (uniqueKeepLast (sortByDate l)) k = [] := hnil
  rw [keyRows_uniqueKeepLast] at h1
  have h2 : (keyRows (sortByDate l) k).getLast? = none := by
    cases hg : (keyRows (sortByDate l) k).getLast? with
    | none => rfl
    | some m => rw [hg] at h1; simp at h1
  have h3 : keyRows (sortByDate l) k = [] := eq_nil_of_getLast?_none h2
  have h4 : r ∈ keyRows l k := by
    rw [keyRows, List.mem_filter]
    exact ⟨hr, by rw [decide_eq_true_eq]; exact hrk⟩
  have h5 : r ∈ keyRows (sortByDate l) k :=
    (((sortByDate_perm l).filter _).mem_iff).2 h4
  rw [h3] at h5
  exact (List.not_mem_nil r) h5

theorem dedup_key_count {l : List Row}
    {k : Option String × Option String × Option String × Option String × Option String}
    (h : ∃ r ∈ l, rawKey r = k) :
    (keyRows (deduplicate_data l).1 k).length = 1 := by
  have hnn := dedup_key_present h
  rw [dedup_keyRows] at hnn ⊢
  cases hspec : specLatest l k with
  | none => rw [hspec] at hnn; simp at hnn
  | some m => rfl

theorem mem_insertByName {a x : SrcFile} {l : List SrcFile} :
    x ∈ insertByName a l ↔ x = a ∨ x ∈ l := by
  induction l with
  | nil => simp [insertByName]
  | cons b bs ih =>
      by_cases h : a.name ≤ b.name
      · simp [insertByName, h]
      · simp only [insertByName, if_neg h, List.mem_cons, ih]
        tauto

theorem mem_sortByName {x : SrcFile} {l : List SrcFile} :
    x ∈ sortByName l ↔ x ∈ l := by
  induction l with
  | nil => simp [sortByName]
  | cons a as ih => simp [sortByName, mem_insertByName, ih]

/-! ## C5 -/

/-- C5: `update_keys` is the intersection of the baseline and incoming key
sets and `new_keys` is the incoming keys minus the baseline keys, hence the
two are disjoint and their union is exactly the incoming key set, for all
inputs. -/
theorem identify_changes_partitions (current incremental : List Row) :
    (identify_changes current incremental).1 ∪ (identify_changes current incremental).2
        = mergeKeys incremental
      ∧ (identify_changes current incremental).1 ∩ (identify_changes current incremental).2
        = ∅
      ∧ (identify_changes current incremental).1
        = mergeKeys current ∩ mergeKeys incremental
      ∧ (identify_changes current incremental).2
        = mergeKeys incremental \ mergeKeys current := by
  refine ⟨?_, ?_, rfl, rfl⟩
  · show mergeKeys current ∩ mergeKeys incremental
        ∪ mergeKeys incremental \ mergeKeys current = mergeKeys incremental
    ext k
    simp only [Finset.mem_union, Finset.mem_inter, Finset.mem_sdiff]
    tauto
  · show (mergeKeys current ∩ mergeKeys incremental)
        ∩ (mergeKeys incremental \ mergeKeys current) = ∅
    ext k
    simp only [Finset.mem_inter, Finset.mem_sdiff, Finset.not_mem_empty, iff_false]
    tauto

/-! ### Composite keys and cleaned values -/

theorem cleanVal_fix_some {s : String} (h : cleanVal (some s) = some s) :
    stripChars s = s ∧ s ≠ "" := by
  rw [cleanVal] at h
  by_cases hs : stripChars s = ""
  · rw [if_pos hs] at h
    exact absurd h (by simp)
  · rw [if_neg hs] at h
    have h2 : stripChars s = s := by simpa using h
    exact ⟨h2, by rw [← h2]; exact hs⟩

/-- On cleaned cells (trimmed, blank-nullified) the key normalisation
`fill_null('') + strip` is injective: null maps to `""`, which no cleaned
non-null value equals. -/
theorem normStr_inj_of_clean {o o' : Option String}
    (h : cleanVal o = o) (h' : cleanVal o' = o')
    (heq : normStr o = normStr o') : o = o' := by
  cases o with
  | none =>
      cases o' with
      | none => rfl
      | some s' =>
          rcases cleanVal_fix_some h' with ⟨hs', hne'⟩
          have h2 : normStr (some s') = s' := by
            simp only [normStr, Option.getD_some]
            exact hs'
          rw [h2] at heq
          exact absurd heq.symm hne'
  | some s =>
      rcases cleanVal_fix_some h with ⟨hs, hne⟩
      have h1 : normStr (some s) = s := by
        simp only [normStr, Option.getD_some]
        exact hs
      cases o' with
      | none =>
          rw [h1] at heq
          exact absurd heq hne
      | some s' =>
          rcases cleanVal_fix_some h' with ⟨hs', -⟩
          have h2 : normStr (some s') = s' := by
            simp only [normStr, Option.getD_some]
            exact hs'
          rw [h1, h2] at heq
          rw [heq]

theorem compositeKey_rawKey_of_clean {r r' : Row}
    (h : cleanRow r = r) (h' : cleanRow r' = r')
    (heq : compositeKey r = compositeKey r') : rawKey r = rawKey r' := by
  have c1 : cleanVal r.pmmItemNumber = r.pmmItemNumber :=
    congrArg Row.pmmItemNumber h
  have c2 : cleanVal r.corpAcct = r.corpAcct := congrArg Row.corpAcct h
  have c3 : cleanVal r.vendorCode = r.vendorCode := congrArg Row.vendorCode h
  have c4 : cleanVal r.addCostCentre = r.addCostCentre :=
    congrArg Row.addCostCentre h
  have c5 : cleanVal r.addGlAccount = r.addGlAccount :=
    congrArg Row.addGlAccount h
  have d1 : cleanVal r'.pmmItemNumber = r'.pmmItemNumber :=
    congrArg Row.pmmItemNumber h'
  have d2 : cleanVal r'.corpAcct = r'.corpAcct := congrArg Row.corpAcct h'
  have d3 : cleanVal r'.vendorCode = r'.vendorCode := congrArg Row.vendorCode h'
  have d4 : cleanVal r'.addCostCentre = r'.addCostCentre :=
    congrArg Row.addCostCentre h'
  have d5 : cleanVal r'.addGlAccount = r'.addGlAccount :=
    congrArg Row.addGlAccount h'
  simp only [compositeKey, Prod.mk.injEq] at heq
  obtain ⟨e1, e2, e3, e4, e5⟩ := heq
  simp only [rawKey, Prod.mk.injEq]
  exact ⟨normStr_inj_of_clean c1 d1 e1, normStr_inj_of_clean c2 d2 e2,
    normStr_inj_of_clean c3 d3 e3, normStr_inj_of_clean c4 d4 e4,
    normStr_inj_of_clean c5 d5 e5⟩

theorem compositeKey_of_rawKey {r r' : Row} (h : rawKey r = rawKey r') :
    compositeKey r = compositeKey r' := by
  simp only [rawKey, Prod.mk.injEq] at h
  obtain ⟨e1, e2, e3, e4, e5⟩ := h
  simp only [compositeKey]
  rw [e1, e2, e3, e4, e5]

theorem prepare_merge_key_eq_of_compositeKey {r r' : Row}
    (h : compositeKey r = compositeKey r') :
    prepare_merge_key r = prepare_merge_key r' := by
  simp only [compositeKey, Prod.mk.injEq] at h
  obtain ⟨e1, e2, e3, e4, e5⟩ := h
  simp only [prepare_merge_key]
  rw [e1, e2, e3, e4, e5]

theorem mergeKey_mem_mergeKeys {c : Row} {l : List Row} (h : c ∈ l) :
    prepare_merge_key c ∈ mergeKeys l := by
  rw [mergeKeys, List.mem_toFinset]
  exact List.mem_map_of_mem _ h

/-! ## C6 -/

/-- C6: deduplication keeps, for every (raw five-column) key, exactly one
row — the occurrence with the latest item-update timestamp, ties between
equal timestamps broken by input order (i.e. the last such input
occurrence, `specLatest`); the reported duplicates-removed count is the
number of input rows minus the number of rows kept; and, in particular,
of two rows sharing a key with dates `d1 < d2` the one carrying `d2` is
retained.  (The polars sort is modelled as stable; its contract leaves the
order of date-ties unspecified, and the spec fixes input order as the
documented policy.) -/
theorem deduplicate_data_keeps_latest (l : List Row)
    (k : Option String × Option String × Option String × Option String × Option String) :
    keyRows (deduplicate_data l).1 k = (specLatest l k).toList
      ∧ (deduplicate_data l).2 = l.length - (deduplicate_data l).1.length
      ∧ ((∃ r ∈ l, rawKey r = k) →
          (keyRows (deduplicate_data l).1 k).length = 1)
      ∧ (∀ r1 r2 : Row, rawKey r1 = rawKey r2 →
          r1.itemUpdateDate < r2.itemUpdateDate →
          (deduplicate_data [r1, r2]).1 = [r2]) := by
  refine ⟨dedup_keyRows l k, rfl, dedup_key_count, ?_⟩
  intro r1 r2 hk hd
  show uniqueKeepLast (sortByDate [r1, r2]) = [r2]
  have hsort : sortByDate [r1, r2] = [r1, r2] := by
    show insertByDate r1 (insertByDate r2 (sortByDate [])) = [r1, r2]
    rw [show sortByDate [] = [] from rfl, insertByDate,
      insertByDate, if_pos (Nat.le_of_lt hd)]
  rw [hsort, uniqueKeepLast]
  rw [if_pos (by simp [hk.symm])]
  rfl

/-- Witness for C6: two rows sharing one key with dates 1 < 2 — the date-2
row is the single survivor and one duplicate removal is reported. -/
theorem deduplicate_data_keeps_latest_witness :
    (∃ r ∈ [rowDup1, rowDup2], rawKey r = rawKey rowDup2)
      ∧ (keyRows (deduplicate_data [rowDup1, rowDup2]).1 (rawKey rowDup2)).length = 1
      ∧ (deduplicate_data [rowDup1, rowDup2]).1 = [rowDup2]
      ∧ (deduplicate_data [rowDup1, rowDup2]).2 = 1 := by
  have h := deduplicate_data_keeps_latest [rowDup1, rowDup2] (rawKey rowDup2)
  exact ⟨⟨rowDup2, by decide, rfl⟩,
    h.2.2.1 ⟨rowDup2, by decide, rfl⟩,
    h.2.2.2 rowDup1 rowDup2 (by decide) (by decide),
    by decide⟩

/-! ## C4 -/

/-- C4: the merge removes every baseline row whose `_merge_key` is in
`update_keys` and appends the full deduplicated incoming set (first
conjunct, as a membership characterisation); consequently — for incoming
data that has been through the pipeline's cleaning, so that distinct raw
key tuples carry distinct Composite Keys — every Composite Key touched by
the batch has exactly one row in the merged result, and that row *is* the
incoming row (whole-record replacement, not a per-field patch). -/
theorem merge_replaces_whole_records (current x inc : List Row)
    (hclean : ∀ r ∈ x, cleanRow r = r)
    (hinc : inc = (deduplicate_data x).1) :
    (∀ rr, rr ∈ merge_dataframes current inc (identify_changes current inc).1
        ↔ ((rr ∈ current
              ∧ prepare_merge_key rr ∉ (identify_changes current inc).1)
            ∨ rr ∈ inc))
      ∧ (∀ t, (∃ r ∈ inc, compositeKey r = t) →
          (merge_dataframes current inc (identify_changes current inc).1).filter
              (fun rr => compositeKey rr = t)
            = inc.filter (fun rr => compositeKey rr = t)
          ∧ ((merge_dataframes current inc
                (identify_changes current inc).1).filter
              (fun rr => compositeKey rr = t)).length = 1) := by
  constructor
  · intro rr
    by_cases hup : (identify_changes current inc).1 = ∅
    · simp [merge_dataframes, hup, List.mem_append]
    · simp [merge_dataframes, hup, List.mem_append, List.mem_filter]
  · intro t ht
    rcases ht with ⟨r0, hr0, hr0t⟩
    -- no row of the (possibly filtered) baseline block carries a touched key
    have hbase : ∀ tail : List Row,
        (∀ c ∈ tail, c ∈ current
          ∧ (¬ (identify_changes current inc).1 = ∅ →
              prepare_merge_key c ∉ (identify_changes current inc).1)) →
        tail.filter (fun rr => compositeKey rr = t) = [] := by
      intro tail htail
      rw [List.filter_eq_nil_iff]
      intro c hc
      rw [decide_eq_true_eq]
      intro hct
      rcases htail c hc with ⟨hcc, hcupd⟩
      have hkey : prepare_merge_key c = prepare_merge_key r0 :=
        prepare_merge_key_eq_of_compositeKey (by rw [hct, hr0t])
      have hmem : prepare_merge_key c ∈ (identify_changes current inc).1 := by
        show prepare_merge_key c ∈ mergeKeys current ∩ mergeKeys inc
        rw [Finset.mem_inter]
        exact ⟨mergeKey_mem_mergeKeys hcc,
          hkey ▸ mergeKey_mem_mergeKeys hr0⟩
      by_cases hup : (identify_changes current inc).1 = ∅
      · rw [hup] at hmem
        exact (Finset.not_mem_empty _) hmem
      · exact (hcupd hup) hmem
    have hsplit : (merge_dataframes current inc
          (identify_changes current inc).1).filter
            (fun rr => compositeKey rr = t)
        = inc.filter (fun rr => compositeKey rr = t) := by
      rw [merge_dataframes, List.filter_append]
      by_cases hup : (identify_changes current inc).1 = ∅
      · rw [if_pos hup, hbase current (fun c hc => ⟨hc, fun hne => absurd hup hne⟩)]
        rfl
      · rw [if_neg hup, hbase _ ?_]
        · rfl
        · intro c hc
          rw [List.mem_filter] at hc
          refine ⟨hc.1, fun _ => ?_⟩
          have := hc.2
          simp only [Bool.not_eq_true', decide_eq_false_iff_not] at this
          exact this
    refine ⟨hsplit, ?_⟩
    rw [hsplit]
    -- on cleaned deduplicated data, composite-key rows are raw-key rows
    have hcongr : inc.filter (fun rr => compositeKey rr = t)
        = keyRows inc (rawKey r0) := by
      rw [keyRows]
      apply List.filter_congr
      intro rr hrr
      have hrrclean : cleanRow rr = rr :=
        hclean rr (dedup_subset (hinc ▸ hrr))
      have hr0clean : cleanRow r0 = r0 :=
        hclean r0 (dedup_subset (hinc ▸ hr0))
      apply decide_eq_decide.2
      constructor
      · intro hct
        exact compositeKey_rawKey_of_clean hrrclean hr0clean (by rw [hct, hr0t])
      · intro hraw
        rw [← hr0t]
        exact compositeKey_of_rawKey hraw
    rw [hcongr, hinc]
    exact dedup_key_count ⟨r0, dedup_subset (hinc ▸ hr0), rfl⟩

/-- Witness for C4 at a concrete input: one clean incoming row updating the
one baseline row with its key; the merged result is exactly the incoming
row. -/
theorem merge_replaces_whole_records_witness :
    ((merge_dataframes [rowBase] (deduplicate_data [rowUpd]).1
        (identify_changes [rowBase] (deduplicate_data [rowUpd]).1).1).filter
        (fun rr => compositeKey rr = compositeKey rowUpd)).length = 1
      ∧ merge_dataframes [rowBase] (deduplicate_data [rowUpd]).1
          (identify_changes [rowBase] (deduplicate_data [rowUpd]).1).1
        = [rowUpd] := by
  have h := merge_replaces_whole_records [rowBase] [rowUpd]
    (deduplicate_data [rowUpd]).1 (by decide) rfl
  exact ⟨(h.2 (compositeKey rowUpd) ⟨rowUpd, by decide, rfl⟩).2, by decide⟩

/-! ## C1 -/

/-- C1: the claim fails on the code — in the incremental path a run that
raises after the pre-run backup was created (here: the archive move of the
processed batch file fails after the merged baseline was written) leaves
the *merged* baseline on disk and propagates the error without restoring
the snapshot; the snapshot sits unused in the backup folder.  Only the
"state file unchanged" half of the claim holds.  This theorem evaluates
the embedded orchestrator at such a failing input. -/
theorem failed_incremental_run_keeps_merged_baseline :
    (update_parquet_if_needed worldC1 cfg0 false).1 = .error .archiveFailure
      ∧ (update_parquet_if_needed worldC1 cfg0 false).2.backups = [[rowBase]]
      ∧ (update_parquet_if_needed worldC1 cfg0 false).2.baseline = some [rowBase, rowInc]
      ∧ ¬ (update_parquet_if_needed worldC1 cfg0 false).2.baseline = worldC1.baseline
      ∧ (update_parquet_if_needed worldC1 cfg0 false).2.state = worldC1.state := by
  refine ⟨rfl, rfl, rfl, ?_, rfl⟩
  decide

/-! ## C2 -/

/-- C2: (modelled from the spec — the weekly-full branch is missing from
the truncated source file) whenever at least one full-refresh batch is
discovered, the run enters full-refresh mode: the baseline is rebuilt from
the full-refresh batch records, no incremental batch is processed, and the
discovered incremental batches are left untouched for the next run. -/
theorem full_refresh_takes_priority (cfg : Config)
    (weekly incremental : List SrcFile) (applied : List String)
    (current : List Row) (hw : weekly ≠ []) :
    (specRun cfg weekly incremental applied current).mode = .fullRefreshPending
      ∧ (specRun cfg weekly incremental applied current).processedIncrementals = []
      ∧ (specRun cfg weekly incremental applied current).remainingIncrementals
          = incremental
      ∧ (specRun cfg weekly incremental applied current).baseline
          = apply_filters cfg.excludeCorpAcct
              (clean_dataframe (weekly.filterMap (·.rows)).flatten) := by
  have hne : weekly.isEmpty = false := by
    cases weekly with
    | nil => exact absurd rfl hw
    | cons a as => rfl
  simp [specRun, specChooseMode, hne]

/-- Witness for C2 at a concrete input. -/
theorem full_refresh_takes_priority_witness :
    (specRun cfg0 [fileWeekly] [fileIncBad] [] [rowBase]).mode = .fullRefreshPending
      ∧ (specRun cfg0 [fileWeekly] [fileIncBad] [] [rowBase]).processedIncrementals = []
      ∧ (specRun cfg0 [fileWeekly] [fileIncBad] [] [rowBase]).remainingIncrementals
          = [fileIncBad] := by
  have h := full_refresh_takes_priority cfg0 [fileWeekly] [fileIncBad] [] [rowBase]
    (by decide)
  exact ⟨h.1, h.2.1, h.2.2.1⟩

/-! ## C3 -/

/-- C3: an incremental batch file whose name is already in the persisted
`applied_incrementals` set is never selected for processing again; and a
run in which every discovered incremental is already applied (and the
timestamp check reports no changes) is a complete no-op: it returns
`False` and leaves the baseline, the backups and the state file exactly as
they were. -/
theorem applied_batch_not_reprocessed (w : World) (cfg : Config) (f : SrcFile)
    (hf : f.name ∈ w.state.appliedIncrementals) :
    f ∉ selectedIncrementals w cfg
      ∧ ((∀ g ∈ get_incremental_files w, g.name ∈ w.state.appliedIncrementals) →
          check_for_changes w.mainFolder w.state = false →
          update_parquet_if_needed w cfg false = (.ok false, w)) := by
  constructor
  · intro hmem
    have h1 : f ∈ sortByName (unappliedIncrementals w) :=
      List.take_subset _ _ hmem
    have h2 : f ∈ unappliedIncrementals w := mem_sortByName.1 h1
    rw [unappliedIncrementals, List.mem_filter] at h2
    have h3 := h2.2
    simp only [Bool.not_eq_true', decide_eq_false_iff_not] at h3
    exact h3 hf
  · intro hall hchg
    have hnil : unappliedIncrementals w = [] := by
      rw [unappliedIncrementals, List.filter_eq_nil_iff]
      intro g hg
      simp only [Bool.not_eq_true', decide_eq_false_iff_not, not_not]
      exact hall g hg
    rw [update_parquet_if_needed, hnil]
    simp [hchg]

/-- Witness for C3 at a concrete world: the single discovered incremental
file is already applied, so the run is a no-op. -/
theorem applied_batch_not_reprocessed_witness :
    fileApplied.name ∈ worldC3.state.appliedIncrementals
      ∧ fileApplied ∉ selectedIncrementals worldC3 cfg0
      ∧ update_parquet_if_needed worldC3 cfg0 false = (.ok false, worldC3) := by
  have h := applied_batch_not_reprocessed worldC3 cfg0 fileApplied (by decide)
  exact ⟨by decide, h.1, h.2 (by decide) (by decide)⟩

/-! ## C8 -/

/-- C8: `has_issues` is true exactly when at least one of the three quality
checks found at least one issue; and validation is purely advisory — the
merged baseline is written to the baseline file before validation runs, so
for every run that reaches the merge the persisted baseline equals the
filtered merged frame regardless of any validation finding, and the only
error the post-merge portion of the run can raise is an archive failure
(never a validation one). -/
theorem validation_advisory (df : List Row) (permitted : List String)
    (w : World) (cfg : Config) (files : List SrcFile) (current : List Row)
    (hb : w.baseline = some current)
    (hload : files.filterMap (·.rows) ≠ []) :
    ((validate_parquet_data df permitted).hasIssues = true ↔
        (validate_parquet_data df permitted).contractsWithMultipleVendors ≠ []
          ∨ 0 < (validate_parquet_data df permitted).blankVendorCatalogueCount
          ∨ 0 < (validate_parquet_data df permitted).inconsistentVendorCatalogueCount)
      ∧ (apply_incremental_update w cfg files).2.baseline
          = some (mergedBaseline cfg.excludeCorpAcct current
              (files.filterMap (·.rows)))
      ∧ (∀ e, (apply_incremental_update w cfg files).1 = .error e →
          e = .archiveFailure) := by
  constructor
  · simp only [validate_parquet_data, ne_eq, ← List.length_pos_iff_ne_nil]
    by_cases h3 : 0 < (inconsistentCatalogueTriples df).length
    · simp [h3]
    · by_cases h2 : 0 < (blankVendorCatalogueRows df permitted).length
      · simp [h2, h3]
      · by_cases h1 : 0 < (contractsMultiVendor df).length
        · simp [h1, h2, h3]
        · simp [h1, h2, h3]
  · rw [apply_incremental_update, hb]
    simp only [if_neg hload]
    set w2 : World :=
      { w with
        backups := current :: w.backups
        baseline := some (mergedBaseline cfg.excludeCorpAcct current
          (files.filterMap (·.rows))) } with hw2
    by_cases harch : cfg.shouldArchive
    · simp only [harch, if_true]
      rcases hout : archiveFiles w2 files with ⟨ok, w3⟩
      have hpres := archiveFiles_preserves w2 files
      rw [hout] at hpres
      cases ok
      · exact ⟨hpres.1, fun e he => by
          have := he
          simp only [Except.error.injEq] at this
          exact this.symm⟩
      · exact ⟨hpres.1, fun e he => by simp at he⟩
    · simp only [harch, if_false]
      exact ⟨rfl, fun e he => by simp at he⟩

/-- Witness for C8 at a concrete input: the baseline written by the run has
a blank-catalogue issue (`has_issues` is true), and it is persisted
anyway. -/
theorem validation_advisory_witness :
    ((validate_parquet_data [rowBlank] []).hasIssues = true ↔
        (validate_parquet_data [rowBlank] []).contractsWithMultipleVendors ≠ []
          ∨ 0 < (validate_parquet_data [rowBlank] []).blankVendorCatalogueCount
          ∨ 0 < (validate_parquet_data [rowBlank] []).inconsistentVendorCatalogueCount)
      ∧ (validate_parquet_data [rowBlank] []).hasIssues = true
      ∧ (apply_incremental_update worldC8 cfg0 [fileIncGood]).2.baseline
          = some (mergedBaseline cfg0.excludeCorpAcct [rowBlank]
              ([fileIncGood].filterMap (·.rows))) := by
  have h := validation_advisory [rowBlank] [] worldC8 cfg0 [fileIncGood] [rowBlank]
    rfl (by decide)
  exact ⟨h.1, by decide, h.2.1⟩

/-! ## C9 -/

/-- C9: the Corp-Acct exclusion filter runs over the **entire** merged
baseline (`core.py` line 310), so a baseline row whose composite key is in
neither `update_keys` nor `new_keys` — untouched by the batch, and indeed
still present right after the key-based merge — is nevertheless removed
from the persisted result whenever its `Corp Acct` value is in the
configured exclusion list. -/
theorem untouched_rows_dropped_by_filter (current inc : List Row)
    (exclude : List String) (r : Row) (v : String)
    (hr : r ∈ current)
    (hupd : prepare_merge_key r ∉ (identify_changes current inc).1)
    (_hnew : prepare_merge_key r ∉ (identify_changes current inc).2)
    (hv : r.corpAcct = some v) (hvex : v ∈ exclude) :
    r ∈ merge_dataframes current inc (identify_changes current inc).1
      ∧ r ∉ apply_filters exclude
          (merge_dataframes current inc (identify_changes current inc).1) := by
  have hmem : r ∈ merge_dataframes current inc (identify_changes current inc).1 := by
    rw [merge_dataframes]
    by_cases hempty : (identify_changes current inc).1 = ∅
    · simp only [if_pos hempty]
      exact List.mem_append_left _ hr
    · simp only [if_neg hempty]
      refine List.mem_append_left _ ?_
      rw [List.mem_filter]
      exact ⟨hr, by simpa using hupd⟩
  refine ⟨hmem, ?_⟩
  intro habs
  have hne : exclude ≠ [] := by
    intro h
    rw [h] at hvex
    exact absurd hvex (List.not_mem_nil v)
  rw [apply_filters, if_neg hne, List.mem_filter] at habs
  have := habs.2
  rw [hv] at this
  simp only [Bool.not_eq_true', decide_eq_false_iff_not] at this
  exact this hvex

/-- Witness for C9 at a concrete input: the baseline row `rowExcl` shares
no key with the batch, survives the key-based merge, and is removed by the
post-merge exclusion filter. -/
theorem untouched_rows_dropped_by_filter_witness :
    rowExcl ∈ merge_dataframes [rowExcl] [rowInc]
        (identify_changes [rowExcl] [rowInc]).1
      ∧ rowExcl ∉ apply_filters ["99"]
          (merge_dataframes [rowExcl] [rowInc]
            (identify_changes [rowExcl] [rowInc]).1) := by
  exact untouched_rows_dropped_by_filter [rowExcl] [rowInc] ["99"] rowExcl "99"
    (by decide) (by decide) (by decide) (by decide) (by decide)

/-! ## C7/C10: the change auditor's diff -/

/-- Every column is compared for an updated key (in the source the set
difference at `quality.py` line 295 removes only the helper columns and
the update date, none of which are data columns of `Row`). -/
theorem mem_compareCols (c : Col) : c ∈ compareCols := by
  cases c <;> decide

/-- Membership characterisation of the `Updated` Change Records: a record
is emitted exactly for a pair of a current and a previous row sharing a
`_unique_key` and a compared column on which their null-coalesced string
forms differ. -/
theorem mem_updatedChangeRecords {current previous : List Row} {rec : ChangeRec} :
    rec ∈ updatedChangeRecords current previous ↔
      ∃ r ∈ current, ∃ p ∈ previous, ∃ c ∈ compareCols,
        prepare_merge_key r = prepare_merge_key p
          ∧ diffForm (r.get c) ≠ diffForm (p.get c)
          ∧ rec = { key := prepare_merge_key r, col := c, prevVal := p.get c,
                    curVal := r.get c, updateDate := r.itemUpdateDate,
                    kind := .updated } := by
  simp only [updatedChangeRecords, List.mem_flatMap, List.mem_filterMap,
    List.mem_filter, List.any_eq_true, decide_eq_true_eq]
  constructor
  · rintro ⟨r, ⟨hr, p0, hp0, hkey0⟩, c, hc, p, ⟨⟨hp, -⟩, hkeyp⟩, hif⟩
    by_cases hdiff : diffForm (r.get c) ≠ diffForm (p.get c)
    · rw [if_pos hdiff] at hif
      exact ⟨r, hr, p, hp, c, hc, hkeyp.symm, hdiff, (Option.some_inj.1 hif).symm⟩
    · rw [if_neg hdiff] at hif
      exact absurd hif (by simp)
  · rintro ⟨r, hr, p, hp, c, hc, hkey, hdiff, hrec⟩
    refine ⟨r, ⟨hr, p, hp, hkey.symm⟩, c, hc, p, ⟨⟨hp, r, hr, hkey⟩, hkey.symm⟩, ?_⟩
    rw [if_pos hdiff, hrec]

/-- C7: the claim as stated is false — the auditor does *not* restrict the
comparison to non-key fields: `compare_cols` removes only `_unique_key`,
the update date, `source_file` and `_merge_key`, so the five composite-key
columns are compared too, and a pair of rows sharing a `_unique_key` while
differing in a raw key field (possible because the key is a `|`-joined
string) yields an `Updated` Change Record on a key field. -/
theorem updated_changes_not_restricted_to_nonkey_fields :
    ¬ (∀ (current previous : List Row) (rec : ChangeRec),
        rec ∈ updatedChangeRecords current previous →
          rec.col ∉ [Col.pmmItemNumber, Col.corpAcct, Col.vendorCode,
                     Col.addCostCentre, Col.addGlAccount]) := by
  intro h
  exact h [rowPipeCur] [rowPipePrev] recPipe (by decide) (by decide)

/-- C7 (amended): for updated keys the auditor emits an `Updated` Change
Record for a field if and only if the field is any schema column other
than the item-update-date and the helper/provenance columns — the five
composite-key fields included — present in both frames, whose incoming
value differs from the baseline value under exact string-form comparison
(nulls coalesced to the empty string, no re-trimming, so a value differing
only by internal whitespace or case is a change). -/
theorem updated_change_records_iff (current previous : List Row) (rec : ChangeRec) :
    rec ∈ updatedChangeRecords current previous ↔
      ∃ r ∈ current, ∃ p ∈ previous, ∃ c ∈ compareCols,
        prepare_merge_key r = prepare_merge_key p
          ∧ diffForm (r.get c) ≠ diffForm (p.get c)
          ∧ rec = { key := prepare_merge_key r, col := c, prevVal := p.get c,
                    curVal := r.get c, updateDate := r.itemUpdateDate,
                    kind := .updated } :=
  mem_updatedChangeRecords

/-- C10: at diff time null is coalesced to the empty string on both sides
(`fill_null('')`, `quality.py` lines 312-314): for an updated key (unique
on both sides) a null-to-empty or empty-to-null difference on a field
never yields an `Updated` Change Record for that key and field, while a
null-to-non-empty difference always does. -/
theorem diff_null_coalesced (current previous : List Row) (r p : Row) (c : Col)
    (hr : r ∈ current) (hp : p ∈ previous)
    (hkey : prepare_merge_key r = prepare_merge_key p)
    (huc : ∀ r' ∈ current, prepare_merge_key r' = prepare_merge_key r → r' = r)
    (hup : ∀ p' ∈ previous, prepare_merge_key p' = prepare_merge_key p → p' = p) :
    (((r.get c = none ∧ p.get c = some "") ∨ (r.get c = some "" ∧ p.get c = none)) →
        ∀ rec ∈ updatedChangeRecords current previous,
          ¬ (rec.key = prepare_merge_key r ∧ rec.col = c))
      ∧ (∀ s, r.get c = some s → s ≠ "" → p.get c = none →
          ∃ rec ∈ updatedChangeRecords current previous,
            rec.key = prepare_merge_key r ∧ rec.col = c
              ∧ rec.curVal = some s ∧ rec.prevVal = none) := by
  constructor
  · rintro hcase rec hrec ⟨hrk, hrc⟩
    rcases mem_updatedChangeRecords.1 hrec with
      ⟨r', hr', p', hp', c', -, hkey', hdiff, hrec'⟩
    have hck : rec.key = prepare_merge_key r' := by rw [hrec']
    have hcc : rec.col = c' := by rw [hrec']
    have hr'r : r' = r := huc r' hr' (by rw [← hck, hrk])
    have hp'p : p' = p := hup p' hp' (by rw [← hkey', hr'r, hkey])
    apply hdiff
    rw [hr'r, hp'p, ← hcc, hrc]
    rcases hcase with ⟨h1, h2⟩ | ⟨h1, h2⟩ <;> rw [h1, h2] <;> rfl
  · intro s hs hsne hpnone
    refine ⟨{ key := prepare_merge_key r, col := c, prevVal := p.get c,
              curVal := r.get c, updateDate := r.itemUpdateDate,
              kind := .updated }, ?_, rfl, rfl, by rw [hs], by rw [hpnone]⟩
    refine mem_updatedChangeRecords.2
      ⟨r, hr, p, hp, c, mem_compareCols c, hkey, ?_, rfl⟩
    rw [hs, hpnone]
    simpa [diffForm] using hsne

/-- Witness for C10 at a concrete input: a null-to-`"NEW"` change on
`Vendor Catalogue` produces exactly the expected `Updated` record. -/
theorem diff_null_coalesced_witness :
    ∃ rec ∈ updatedChangeRecords [rowC10cur] [rowC10prev],
      rec.key = prepare_merge_key rowC10cur ∧ rec.col = Col.vendorCatalogue
        ∧ rec.curVal = some "NEW" ∧ rec.prevVal = none := by
  have h := diff_null_coalesced [rowC10cur] [rowC10prev] rowC10cur rowC10prev
    Col.vendorCatalogue (by decide) (by decide) (by decide)
    (fun r' hr' _ => by simpa using hr')
    (fun p' hp' _ => by simpa using hp')
  exact h.2 "NEW" (by decide) (by decide) (by decide)
